import Mathlib

/-!
Verification of the PyChain ledger core (pychain.py).

The embedding models the Python source shallowly:

* Python `int` becomes `Int` (unbounded, may be incremented without overflow);
* Python strings become `List Char`; the bytes fed to the SHA-256
  accumulator become `List Nat` (each entry a byte value, via UTF-8);
* `hashlib.sha256` is embedded as an executable SHA-256 over byte lists,
  with all 32-bit words represented as `Nat` reduced modulo 2 ^ 32;
* the unbounded `while` loop of `proof_of_work` is modelled with an explicit
  fuel argument counting loop iterations: `none` means the loop did not
  finish within the given fuel.
-/

/-- Reduce a natural number modulo 2 ^ 32, the word size of SHA-256. -/
def w32 (n : Nat) : Nat := n % 4294967296

/-- Right rotation of a 32-bit word (input assumed already below 2 ^ 32). -/
def rot32 (x k : Nat) : Nat := w32 ((x >>> k) ||| (x <<< (32 - k)))

/-- Bitwise complement of a 32-bit word. -/
def notw (x : Nat) : Nat := x ^^^ 4294967295

/-- SHA-256 choice function. -/
def chF (x y z : Nat) : Nat := (x &&& y) ^^^ (notw x &&& z)

/-- SHA-256 majority function. -/
def majF (x y z : Nat) : Nat := ((x &&& y) ^^^ (x &&& z)) ^^^ (y &&& z)

/-- SHA-256 big sigma 0. -/
def bsig0 (x : Nat) : Nat := (rot32 x 2) ^^^ ((rot32 x 13) ^^^ (rot32 x 22))

/-- SHA-256 big sigma 1. -/
def bsig1 (x : Nat) : Nat := (rot32 x 6) ^^^ ((rot32 x 11) ^^^ (rot32 x 25))

/-- SHA-256 small sigma 0. -/
def ssig0 (x : Nat) : Nat := (rot32 x 7) ^^^ ((rot32 x 18) ^^^ (x >>> 3))

/-- SHA-256 small sigma 1. -/
def ssig1 (x : Nat) : Nat := (rot32 x 17) ^^^ ((rot32 x 19) ^^^ (x >>> 10))

/-- The 64 SHA-256 round constants, written in decimal. -/
def shaK : List Nat :=
  [1116352408, 1899447441, 3049323471, 3921009573,
   961987163, 1508970993, 2453635748, 2870763221,
   3624381080, 310598401, 607225278, 1426881987,
   1925078388, 2162078206, 2614888103, 3248222580,
   3835390401, 4022224774, 264347078, 604807628,
   770255983, 1249150122, 1555081692, 1996064986,
   2554220882, 2821834349, 2952996808, 3210313671,
   3336571891, 3584528711, 113926993, 338241895,
   666307205, 773529912, 1294757372, 1396182291,
   1695183700, 1986661051, 2177026350, 2456956037,
   2730485921, 2820302411, 3259730800, 3345764771,
   3516065817, 3600352804, 4094571909, 275423344,
   430227734, 506948616, 659060556, 883997877,
   958139571, 1322822218, 1537002063, 1747873779,
   1955562222, 2024104815, 2227730452, 2361852424,
   2428436474, 2756734187, 3204031479, 3329325298]

/-- Running state of the SHA-256 compression: the eight 32-bit words. -/
structure ShaState where
  sa : Nat
  sb : Nat
  sc : Nat
  sd : Nat
  se : Nat
  sf : Nat
  sg : Nat
  sh : Nat
  deriving Repr, DecidableEq

/-- The SHA-256 initial hash value, written in decimal. -/
def shaInit : ShaState :=
  ⟨1779033703, 3144134277, 1013904242, 2773480762,
   1359893119, 2600822924, 528734635, 1541459225⟩

/-- Group a byte list into big-endian 32-bit words (four bytes per word). -/
def bytesToWords : List Nat → List Nat
  | b0 :: b1 :: b2 :: b3 :: rest =>
      (((b0 * 256 + b1) * 256 + b2) * 256 + b3) :: bytesToWords rest
  | _ => []

/-- Extend the 16-word message schedule of a chunk by `k` further words. -/
def extendW (arr : Array Nat) : Nat → Array Nat
  | 0 => arr
  | k + 1 =>
      extendW
        (arr.push (w32 (ssig1 (arr.getD (arr.size - 2) 0) +
          arr.getD (arr.size - 7) 0 +
          ssig0 (arr.getD (arr.size - 15) 0) +
          arr.getD (arr.size - 16) 0))) k

/-- The full 64-word message schedule of one chunk. -/
def extendTo64 (ws : List Nat) : List Nat := (extendW ws.toArray 48).toList

/-- One round of the SHA-256 compression function. -/
def shaRound (st : ShaState) (kw : Nat × Nat) : ShaState :=
  let t1 := w32 (st.sh + bsig1 st.se + chF st.se st.sf st.sg + kw.1 + kw.2)
  let t2 := w32 (bsig0 st.sa + majF st.sa st.sb st.sc)
  { sa := w32 (t1 + t2), sb := st.sa, sc := st.sb, sd := st.sc,
    se := w32 (st.sd + t1), sf := st.se, sg := st.sf, sh := st.sg }

/-- Compress one 64-byte chunk into the running state. -/
def shaCompress (st : ShaState) (chunk : List Nat) : ShaState :=
  let ws := extendTo64 (bytesToWords chunk)
  let e := (shaK.zip ws).foldl shaRound st
  { sa := w32 (st.sa + e.sa), sb := w32 (st.sb + e.sb),
    sc := w32 (st.sc + e.sc), sd := w32 (st.sd + e.sd),
    se := w32 (st.se + e.se), sf := w32 (st.sf + e.sf),
    sg := w32 (st.sg + e.sg), sh := w32 (st.sh + e.sh) }

/-- Fold the compression over `n` consecutive 64-byte chunks. -/
def shaChunks : ShaState → Nat → List Nat → ShaState
  | st, 0, _ => st
  | st, n + 1, bytes => shaChunks (shaCompress st (bytes.take 64)) n (bytes.drop 64)

/-- The 8-byte big-endian encoding of the bit length, used by the padding. -/
def lenBytes (n : Nat) : List Nat :=
  [n / 72057594037927936 % 256, n / 281474976710656 % 256,
   n / 1099511627776 % 256, n / 4294967296 % 256,
   n / 16777216 % 256, n / 65536 % 256, n / 256 % 256, n % 256]

/-- SHA-256 padding: append 0x80, zero bytes up to 56 mod 64, then the
bit length, producing a multiple of 64 bytes. -/
def padMsg (msg : List Nat) : List Nat :=
  let zeros := (119 - msg.length % 64) % 64
  msg ++ 0x80 :: (List.replicate zeros 0 ++ lenBytes (8 * msg.length))

/-- The sixteen lowercase hexadecimal digit characters, in value order. -/
def hexDigits : List Char := "0123456789abcdef".data

/-- The hexadecimal digit character of `n % 16`. -/
def hexChar (n : Nat) : Char := hexDigits.getD (n % 16) '0'

/-- The eight hex nibble values of a 32-bit word, most significant first. -/
def nibbles (x : Nat) : List Nat :=
  [x / 268435456 % 16, x / 16777216 % 16, x / 1048576 % 16, x / 65536 % 16,
   x / 4096 % 16, x / 256 % 16, x / 16 % 16, x % 16]

/-- Hex-encode the final state: the 64-character digest string. -/
def digestOf (st : ShaState) : List Char :=
  (([st.sa, st.sb, st.sc, st.sd, st.se, st.sf, st.sg, st.sh].map nibbles).flatten).map hexChar

/-- SHA-256 of a byte list, as the lowercase hex digest string, mirroring
the Python `hashlib.sha256(...).hexdigest()` result. -/
def sha256 (msg : List Nat) : List Char :=
  let padded := padMsg msg
  digestOf (shaChunks shaInit (padded.length / 64) padded)

/-- UTF-8 encoding of a single character, mirroring Python `str.encode()`. -/
def utf8Bytes (c : Char) : List Nat :=
  let n := c.toNat
  if n < 128 then [n]
  else if n < 2048 then
    [192 ||| (n >>> 6), 128 ||| (n &&& 63)]
  else if n < 65536 then
    [224 ||| (n >>> 12), 128 ||| ((n >>> 6) &&& 63), 128 ||| (n &&& 63)]
  else
    [240 ||| (n >>> 18), 128 ||| ((n >>> 12) &&& 63),
     128 ||| ((n >>> 6) &&& 63), 128 ||| (n &&& 63)]

/-- The UTF-8 byte encoding of a string, mirroring Python `str.encode()`. -/
def strBytes (s : List Char) : List Nat := s.flatMap utf8Bytes

/-- Decimal digit string of a natural number, as Python `str` renders it. -/
def natStr (n : Nat) : List Char := Nat.toDigits 10 n

/-- Decimal string of an integer, as Python `str` renders an `int`
(a leading minus sign for negative values). -/
def intStr (i : Int) : List Char :=
  if i < 0 then '-' :: natStr i.natAbs else natStr i.toNat

/-- Python string repr: escape a backslash or the chosen quote character. -/
def pyEscapeChar (q c : Char) : List Char :=
  if c = '\\' then ['\\', '\\'] else if c = q then ['\\', q] else [c]

/-- Python repr of a string: quoted with single quotes, or double quotes when
the string contains a single quote but no double quote, with backslash and
quote escaping. (Control-character escapes are not modelled; no field of the
claims uses them.) -/
def pyStrRepr (s : List Char) : List Char :=
  let q := if s.contains '\'' && !(s.contains '"') then '"' else '\''
  q :: (s.flatMap (pyEscapeChar q) ++ [q])

/-- The transaction payload, `Record` of pychain.py: `sender`, `receiver` and
`amount`. The Python `amount` is a float; the core only ever observes it
through its textual repr inside `str(record)`, so the model stores that
textual form (`amountRepr`) directly. -/
structure Record where
  sender : List Char
  receiver : List Char
  amountRepr : List Char
  deriving Repr, DecidableEq

/-- Python `str()` of a `Record` dataclass instance:
`Record(sender=..., receiver=..., amount=...)` with repr of each field
(the amount repr is the stored textual form). -/
def Record.strText (r : Record) : List Char :=
  "Record(sender=".data ++ pyStrRepr r.sender ++ ", receiver=".data ++
    pyStrRepr r.receiver ++ ", amount=".data ++ r.amountRepr ++ [')']

/-- The dynamically typed `record` field of a Block: the app passes either a
bare string (the genesis label "Genesis") or a `Record` instance. Hashing
uses `str(record)`, which returns a bare string unchanged and the dataclass
repr for a `Record`. -/
inductive RecordData where
  | text (s : List Char)
  | dat (r : Record)
  deriving Repr, DecidableEq

/-- Python `str(self.record)`. -/
def RecordData.strText : RecordData → List Char
  | .text s => s
  | .dat r => r.strText

/-- A `Block` of pychain.py. `prev_hash` defaults in Python to the int `0`;
since the core only observes it through `str()` and string comparison, the
model stores its textual form (the genesis sentinel is the string "0").
`creator_id` and `nonce` are Python ints. -/
structure Block where
  record : RecordData
  creator_id : Int
  prev_hash : List Char
  timestamp : List Char
  nonce : Int
  deriving Repr, DecidableEq

/-- The byte stream fed into the SHA-256 accumulator by `Block.hash_block`:
the successive `sha.update` calls concatenate the UTF-8 encodings of
`str(record)`, `str(creator_id)`, `str(timestamp)`, `str(prev_hash)` and
`str(nonce)`, with no separators or length framing. -/
def Block.hashInput (b : Block) : List Nat :=
  strBytes b.record.strText ++ strBytes (intStr b.creator_id) ++
    strBytes b.timestamp ++ strBytes b.prev_hash ++ strBytes (intStr b.nonce)

/-- `Block.hash_block` of pychain.py: the SHA-256 hex digest of the
concatenated field encodings. -/
def Block.hash_block (b : Block) : List Char := sha256 b.hashInput

/-- Python `str.startswith`: the second argument is a prefix of the first. -/
def pyStartswith (s p : List Char) : Bool :=
  match p with
  | [] => true
  | q :: ps =>
    match s with
    | [] => false
    | c :: cs => c == q && pyStartswith cs ps

/-- The `PyChain` dataclass: the list of blocks and the difficulty (a Python
int; the app sets it from a slider). -/
structure PyChain where
  chain : List Block
  difficulty : Int
  deriving Repr

/-- The body of the `while` loop of `PyChain.proof_of_work`, with an explicit
fuel argument counting the remaining permitted iterations: while the digest
does not start with `difficulty` zero characters, increment `nonce` by one
and rehash. `none` models the loop not finishing within `fuel` iterations
(the Python loop is unbounded). Python `"0" * d` yields the empty string for
any non-positive `d`, which `Int.toNat` mirrors. -/
def powAux (d : Int) : Nat → Block → Option Block
  | 0, b =>
    match pyStartswith b.hash_block (List.replicate d.toNat '0') with
    | true => some b
    | false => none
  | f + 1, b =>
    match pyStartswith b.hash_block (List.replicate d.toNat '0') with
    | true => some b
    | false => powAux d f { b with nonce := b.nonce + 1 }

/-- `PyChain.proof_of_work`: search for a nonce whose digest starts with
`difficulty` zero characters. The Python method mutates the candidate in
place and returns it; the functional model returns the updated block. -/
def PyChain.proof_of_work (pc : PyChain) (fuel : Nat) (b : Block) : Option Block :=
  powAux pc.difficulty fuel b

/-- `PyChain.add_block`: run proof-of-work on the candidate, then append the
mined block at the end of the chain. -/
def PyChain.add_block (pc : PyChain) (fuel : Nat) (candidate_block : Block) : Option PyChain :=
  match pc.proof_of_work fuel candidate_block with
  | none => none
  | some b => some { pc with chain := pc.chain ++ [b] }

/-- The loop of `PyChain.is_valid`: `block_hash` is the digest of the
preceding block; on the first mismatch with the stored `prev_hash` return
false without scanning further, otherwise rehash and continue. -/
def isValidAux (block_hash : List Char) : List Block → Bool
  | [] => true
  | b :: rest =>
    match block_hash == b.prev_hash with
    | false => false
    | true => isValidAux b.hash_block rest

/-- `PyChain.is_valid`: hash the first block, then walk the rest of the chain
comparing the running hash with each stored `prev_hash`. On the empty chain
the Python code raises IndexError at `self.chain[0]`, modelled as `none`. -/
def PyChain.is_valid (pc : PyChain) : Option Bool :=
  match pc.chain with
  | [] => none
  | b :: rest => some (isValidAux b.hash_block rest)

/-- Whitespace characters stripped by Python `float(str)`. -/
def isPyWs (c : Char) : Bool :=
  c = ' ' || c = '\t' || c = '\n' || c = '\x0d' || c = '\x0b' || c = '\x0c'

/-- Strip leading and trailing whitespace, as Python `float(str)` does. -/
def stripPyWs (s : List Char) : List Char :=
  ((s.dropWhile isPyWs).reverse.dropWhile isPyWs).reverse

/-- Continue a digit run: further digits, with single underscores allowed
between digits. Returns the unconsumed remainder. -/
def digitRunCont : List Char → List Char
  | '_' :: c :: rest =>
    if c.isDigit then digitRunCont rest else '_' :: c :: rest
  | c :: rest => if c.isDigit then digitRunCont rest else c :: rest
  | [] => []

/-- Consume a digit run (at least one digit, underscores only between
digits); `none` when the input does not start with a digit. -/
def digitRun : List Char → Option (List Char)
  | c :: rest => if c.isDigit then some (digitRunCont rest) else none
  | [] => none

/-- Consume the mantissa of a float literal: `digits [. digits]`, `digits .`
or `. digits`. Returns the unconsumed remainder on success. -/
def floatMantissa (s : List Char) : Option (List Char) :=
  match s with
  | '.' :: rest => digitRun rest
  | _ =>
    match digitRun s with
    | none => none
    | some rest =>
      match rest with
      | '.' :: rest2 =>
        match digitRun rest2 with
        | some rest3 => some rest3
        | none => some rest2
      | _ => some rest

/-- Consume an exponent part `e`/`E`, optional sign, digit run. -/
def floatExponent : List Char → Option (List Char)
  | c :: rest =>
    if c = 'e' || c = 'E' then
      match rest with
      | s :: rest2 => if s = '+' || s = '-' then digitRun rest2 else digitRun rest
      | [] => none
    else none
  | [] => none

/-- Whether the sign-free body is a numeric float literal: a mantissa,
optionally followed by an exponent, consuming the whole input. -/
def floatNumericBody (s : List Char) : Bool :=
  match floatMantissa s with
  | none => false
  | some rest =>
    match rest with
    | [] => true
    | _ =>
      match floatExponent rest with
      | some [] => true
      | _ => false

/-- Whether Python `float(s)` succeeds: strip whitespace, optional sign, then
either a case-insensitive `inf`/`infinity`/`nan` or a numeric literal.
(Unicode digits and non-ASCII whitespace, which CPython also accepts, are
outside the model; no claim exercises them.) -/
def pyFloatAccepts (s0 : List Char) : Bool :=
  let s1 := stripPyWs s0
  let s2 :=
    match s1 with
    | c :: rest => if c = '+' || c = '-' then rest else s1
    | [] => []
  let low := s2.map Char.toLower
  if low = "inf".data || low = "infinity".data || low = "nan".data then true
  else floatNumericBody s2

/-- Textual repr of the Python float parsed from an accepted amount string.
Python repr of a float is the shortest decimal string that round-trips
through the binary64 value; binary64 rounding is outside this embedding, and
no claim observes this value, so the model keeps the stripped input text as
a deterministic stand-in. -/
def pyFloatReprModel (s : List Char) : List Char := stripPyWs s

/-- Exceptions the Add Block button handler can raise: a ValueError from
`float(amount)` on a non-numeric string (the ParseError of the spec), or an
IndexError from `chain[-1]` on an empty chain. -/
inductive UiError where
  | parseError
  | indexError
  deriving Repr, DecidableEq

/-- The Add Block button handler of pychain.py: read the chain tail and its
hash, parse the amount text (a failure raises before any mutation), build
the candidate block wired to the hash of the tail, and run `add_block`.
`classTs` is the timestamp default of the `Block` dataclass (evaluated once
when the class is created); `fuel` bounds the mining loop as in `powAux`.
The result pairs the final ledger state with the exception raised, if any;
`none` models mining not finishing within `fuel`. -/
def addBlockClick (classTs : List Char) (pc : PyChain) (fuel : Nat)
    (sender receiver amount : List Char) : Option (PyChain × Option UiError) :=
  match pc.chain.getLast? with
  | none => some (pc, some UiError.indexError)
  | some prev =>
    let prev_block_hash := prev.hash_block
    match pyFloatAccepts amount with
    | false => some (pc, some UiError.parseError)
    | true =>
      let new_block : Block :=
        { record := RecordData.dat ⟨sender, receiver, pyFloatReprModel amount⟩,
          creator_id := 42, prev_hash := prev_block_hash,
          timestamp := classTs, nonce := 0 }
      match pc.add_block fuel new_block with
      | none => none
      | some pc2 => some (pc2, none)

/-- Two-digit zero-padded decimal of `n` (for `n` below 100). -/
def twoDigits (n : Nat) : List Char :=
  [Char.ofNat (48 + n / 10 % 10), Char.ofNat (48 + n % 10)]

/-- Format a UTC clock reading (seconds) as `HH:MM:SS`, the strftime format
used by the `Block` timestamp default. -/
def fmtHMS (t : Nat) : List Char :=
  twoDigits (t / 3600 % 24) ++ ':' :: twoDigits (t / 60 % 60) ++ ':' :: twoDigits (t % 60)

/-- Construct a `Block` without an explicit timestamp argument, as the app
does. In Python a dataclass default expression is evaluated once, when the
class statement executes, so the default timestamp is
`datetime.datetime.utcnow().strftime("%H:%M:%S")` read at class-creation
time `tClassDef`, not at the construction time `tNow`; `tNow` is therefore
unused by the constructed block. `prev_hash` defaults to the sentinel "0". -/
def mkBlockDefaultTs (tClassDef tNow : Nat) (record : RecordData)
    (creator_id : Int) : Block :=
  { record := record, creator_id := creator_id, prev_hash := ['0'],
    timestamp := fmtHMS tClassDef, nonce := 0 }

/-- Append one candidate wired as the spec requires: `prev_hash` is the hash
of the current chain tail, nonce starts at 0. `none` when the chain is empty
or mining runs out of fuel. -/
def appendWired (pc : PyChain) (fuel : Nat) (r : RecordData) (cid : Int)
    (ts : List Char) : Option PyChain :=
  match pc.chain.getLast? with
  | none => none
  | some last => pc.add_block fuel (Block.mk r cid last.hash_block ts 0)

/-- Build a chain from a start ledger purely by correctly wired appends. -/
def buildChain (fuel : Nat) : PyChain → List (RecordData × Int × List Char) → Option PyChain
  | pc, [] => some pc
  | pc, (r, cid, ts) :: rest =>
    match appendWired pc fuel r cid ts with
    | none => none
    | some pc2 => buildChain fuel pc2 rest

/-- Spec-side linkage predicate, following the words of the claims: every
adjacent pair of blocks satisfies that the stored `prev_hash` of the later
equals `hash_block` of the earlier. -/
def LinksOk : List Block → Prop
  | [] => True
  | [_] => True
  | a :: b :: rest => b.prev_hash = a.hash_block ∧ LinksOk (b :: rest)

/-- The running hash after walking `bs` starting from digest `h`: the digest
of the last block of `bs`, or `h` itself when `bs` is empty. -/
def lastHash (h : List Char) : List Block → List Char
  | [] => h
  | b :: rest => lastHash b.hash_block rest

/-! Helper lemmas shared by the claim theorems. -/

/-- The digest has exactly 64 characters, whatever the input. -/
theorem sha256_length (msg : List Nat) : (sha256 msg).length = 64 := rfl

/-- Every value maps to one of the sixteen hex digit characters. -/
theorem hexChar_mem (n : Nat) : hexChar n ∈ hexDigits := by
  unfold hexChar
  have h : n % 16 < 16 := Nat.mod_lt _ (by decide)
  generalize n % 16 = m at h ⊢
  interval_cases m <;> decide

/-- Every character of a digest is a hex digit character. -/
theorem sha256_mem_hex (msg : List Nat) (c : Char) (hc : c ∈ sha256 msg) :
    c ∈ hexDigits := by
  simp only [sha256, digestOf, List.mem_map] at hc
  obtain ⟨k, _, rfl⟩ := hc
  exact hexChar_mem k

/-- The block digest has exactly 64 characters. -/
theorem hash_block_length (b : Block) : b.hash_block.length = 64 :=
  sha256_length b.hashInput

/-- A string only starts with a pattern that is no longer than itself. -/
theorem pyStartswith_length_le (p s : List Char) (h : pyStartswith s p = true) :
    p.length ≤ s.length := by
  induction p generalizing s with
  | nil => simp
  | cons q ps ih =>
    cases s with
    | nil => simp [pyStartswith] at h
    | cons c cs =>
      simp only [pyStartswith, Bool.and_eq_true] at h
      simpa using ih cs h.2

/-- Unfolding equation of `powAux` for an arbitrary fuel value. -/
theorem powAux_eq (d : Int) (fuel : Nat) (b : Block) :
    powAux d fuel b =
      match pyStartswith b.hash_block (List.replicate d.toNat '0') with
      | true => some b
      | false =>
        match fuel with
        | 0 => none
        | f + 1 => powAux d f { b with nonce := b.nonce + 1 } := by
  cases fuel <;> rfl

/-- When the digest of the candidate already meets the target, the loop body
never runs: the candidate itself is returned, whatever the fuel. -/
theorem powAux_immediate (d : Int) (fuel : Nat) (b : Block)
    (hg : pyStartswith b.hash_block (List.replicate d.toNat '0') = true) :
    powAux d fuel b = some b := by
  rw [powAux_eq, hg]

/-- Full characterization of a successful proof-of-work run: the returned
block keeps every field of the candidate except the nonce; the nonce is at
least the initial one; the returned digest meets the target; and every nonce
between the initial one and the returned one fails the target. -/
theorem powAux_spec (d : Int) (fuel : Nat) (b b' : Block)
    (h : powAux d fuel b = some b') :
    b'.record = b.record ∧ b'.creator_id = b.creator_id ∧
    b'.timestamp = b.timestamp ∧ b'.prev_hash = b.prev_hash ∧
    b.nonce ≤ b'.nonce ∧
    pyStartswith b'.hash_block (List.replicate d.toNat '0') = true ∧
    ∀ m : Int, b.nonce ≤ m → m < b'.nonce →
      pyStartswith (Block.hash_block { b with nonce := m })
        (List.replicate d.toNat '0') = false := by
  induction fuel generalizing b with
  | zero =>
    rw [powAux_eq] at h
    cases hg : pyStartswith b.hash_block (List.replicate d.toNat '0') with
    | false => rw [hg] at h; simp at h
    | true =>
      rw [hg] at h
      simp only [Option.some.injEq] at h
      subst h
      exact ⟨rfl, rfl, rfl, rfl, le_refl _, hg,
        fun m h1 h2 => absurd h1 (by omega)⟩
  | succ f ih =>
    rw [powAux_eq] at h
    cases hg : pyStartswith b.hash_block (List.replicate d.toNat '0') with
    | true =>
      rw [hg] at h
      simp only [Option.some.injEq] at h
      subst h
      exact ⟨rfl, rfl, rfl, rfl, le_refl _, hg,
        fun m h1 h2 => absurd h1 (by omega)⟩
    | false =>
      rw [hg] at h
      simp only at h
      obtain ⟨e1, e2, e3, e4, e5, e6, e7⟩ := ih _ h
      simp only at e5
      refine ⟨e1, e2, e3, e4, by omega, e6, ?_⟩
      intro m h1 h2
      rcases eq_or_lt_of_le h1 with heq | hlt
      · have hbm : ({ b with nonce := m } : Block) = b := by
          cases b
          simp only at heq ⊢
          rw [← heq]
        rw [hbm]
        exact hg
      · exact e7 m (by simp only; omega) h2

/-- Whenever some nonce at or above the initial one meets the target, the
loop reaches it: fuel `(n - nonce).toNat` suffices for success. -/
theorem powAux_terminates (d : Int) (n : Int) :
    ∀ (k : Nat) (b : Block), b.nonce ≤ n → (n - b.nonce).toNat = k →
    pyStartswith (Block.hash_block { b with nonce := n })
      (List.replicate d.toNat '0') = true →
    ∃ b', powAux d k b = some b' := by
  intro k
  induction k with
  | zero =>
    intro b h1 h2 h3
    have hn : n = b.nonce := by omega
    subst hn
    have h3' : pyStartswith b.hash_block (List.replicate d.toNat '0') = true := h3
    exact ⟨b, powAux_immediate d 0 b h3'⟩
  | succ k ih =>
    intro b h1 h2 h3
    cases hg : pyStartswith b.hash_block (List.replicate d.toNat '0') with
    | true => exact ⟨b, powAux_immediate d (k + 1) b hg⟩
    | false =>
      have hne : n ≠ b.nonce := by
        intro hn
        subst hn
        have h3' : pyStartswith b.hash_block (List.replicate d.toNat '0') = true := h3
        rw [h3'] at hg
        simp at hg
      obtain ⟨b', hb'⟩ := ih { b with nonce := b.nonce + 1 }
        (by simp only; omega) (by simp only; omega) h3
      refine ⟨b', ?_⟩
      rw [powAux_eq, hg]
      exact hb'

/-- The validation walk starting below block `a` succeeds exactly when the
adjacency predicate holds of the chain headed by `a`. -/
theorem isValidAux_iff (a : Block) (rest : List Block) :
    isValidAux a.hash_block rest = true ↔ LinksOk (a :: rest) := by
  induction rest generalizing a with
  | nil => simp [isValidAux, LinksOk]
  | cons b rest ih =>
    simp only [isValidAux]
    cases hb : a.hash_block == b.prev_hash with
    | false =>
      simp only [LinksOk]
      constructor
      · intro h
        simp at h
      · rintro ⟨h1, _⟩
        rw [h1] at hb
        simp at hb
    | true =>
      have hb' : b.prev_hash = a.hash_block := (eq_of_beq hb).symm
      simp only [LinksOk]
      constructor
      · intro h
        exact ⟨hb', (ih b).1 h⟩
      · rintro ⟨_, h2⟩
        exact (ih b).2 h2

/-- Appending a block whose stored `prev_hash` is the running hash of the
walked part keeps the validation walk succeeding. -/
theorem isValidAux_snoc (bs : List Block) : ∀ (h : List Char) (b : Block),
    isValidAux h bs = true → b.prev_hash = lastHash h bs →
    isValidAux h (bs ++ [b]) = true := by
  induction bs with
  | nil =>
    intro h b _ hp
    simp only [lastHash] at hp
    simp only [List.nil_append, isValidAux]
    rw [hp]
    simp [isValidAux]
  | cons x rest ih =>
    intro h b hv hp
    simp only [lastHash] at hp
    simp only [List.cons_append, isValidAux] at hv ⊢
    cases hx : h == x.prev_hash with
    | false =>
      rw [hx] at hv
      simp at hv
    | true =>
      rw [hx] at hv
      dsimp only at hv ⊢
      exact ih x.hash_block b hv hp

/-- The running hash over the tail of a nonempty chain is the digest of the
last block of the chain. -/
theorem lastHash_getLast (rest : List Block) : ∀ (c0 last : Block),
    (c0 :: rest).getLast? = some last →
    lastHash c0.hash_block rest = last.hash_block := by
  induction rest with
  | nil =>
    intro c0 last h
    simp only [List.getLast?_singleton, Option.some.injEq] at h
    subst h
    rfl
  | cons x rest ih =>
    intro c0 last h
    rw [List.getLast?_cons_cons] at h
    exact ih x last h

/-- Inversion of a successful `add_block`: mining succeeded on the candidate
and the new ledger is the old one with the mined block appended. -/
theorem add_block_inv (pc : PyChain) (fuel : Nat) (cand : Block) (pc' : PyChain)
    (h : pc.add_block fuel cand = some pc') :
    ∃ b', pc.proof_of_work fuel cand = some b' ∧
      pc' = { pc with chain := pc.chain ++ [b'] } := by
  unfold PyChain.add_block at h
  cases hp : pc.proof_of_work fuel cand with
  | none =>
    rw [hp] at h
    simp at h
  | some b =>
    rw [hp] at h
    simp only [Option.some.injEq] at h
    exact ⟨b, rfl, h.symm⟩

/-- A correctly wired, successful `add_block` preserves validity of the
ledger. -/
theorem add_block_valid (pc : PyChain) (fuel : Nat) (cand last : Block)
    (pc' : PyChain) (hval : pc.is_valid = some true)
    (hlast : pc.chain.getLast? = some last)
    (hwire : cand.prev_hash = last.hash_block)
    (hadd : pc.add_block fuel cand = some pc') :
    pc'.is_valid = some true := by
  obtain ⟨b', hpow, rfl⟩ := add_block_inv pc fuel cand pc' hadd
  obtain ⟨_, _, _, e4, _, _, _⟩ := powAux_spec pc.difficulty fuel cand b' hpow
  unfold PyChain.is_valid at hval ⊢
  cases hc : pc.chain with
  | nil =>
    rw [hc] at hval
    simp at hval
  | cons c0 rest =>
    rw [hc] at hval
    simp only [Option.some.injEq] at hval
    simp only [hc, List.cons_append]
    have hgood : isValidAux c0.hash_block (rest ++ [b']) = true := by
      apply isValidAux_snoc rest c0.hash_block b' hval
      rw [e4, hwire]
      exact (lastHash_getLast rest c0 last (hc ▸ hlast)).symm
    rw [hgood]

/-- Every ledger reached from a valid one purely by correctly wired appends
is valid. -/
theorem buildChain_valid (fuel : Nat) :
    ∀ (specs : List (RecordData × Int × List Char)) (pc pc' : PyChain),
    pc.is_valid = some true → buildChain fuel pc specs = some pc' →
    pc'.is_valid = some true := by
  intro specs
  induction specs with
  | nil =>
    intro pc pc' hv h
    simp only [buildChain, Option.some.injEq] at h
    rw [← h]
    exact hv
  | cons s rest ih =>
    intro pc pc' hv h
    obtain ⟨r, cid, ts⟩ := s
    simp only [buildChain] at h
    cases ha : appendWired pc fuel r cid ts with
    | none =>
      rw [ha] at h
      simp at h
    | some pc2 =>
      rw [ha] at h
      apply ih pc2 pc' _ h
      unfold appendWired at ha
      cases hl : pc.chain.getLast? with
      | none =>
        rw [hl] at ha
        simp at ha
      | some last =>
        rw [hl] at ha
        exact add_block_valid pc fuel (Block.mk r cid last.hash_block ts 0)
          last pc2 hv hl rfl ha

/-! Concrete fixtures used by the witnesses. `WGenesis` mirrors the
`Block("Genesis", 0)` genesis block of the app (with some fixed timestamp);
`WPc` is a singleton ledger at difficulty 0; `WCand` is a candidate wired to
the genesis hash as the app wires it. -/

def WGenesis : Block :=
  { record := RecordData.text "Genesis".data, creator_id := 0,
    prev_hash := ['0'], timestamp := "12:00:00".data, nonce := 0 }

def WPc : PyChain := { chain := [WGenesis], difficulty := 0 }

def WCand : Block :=
  { record := RecordData.dat ⟨"Alice".data, "Bob".data, "10.0".data⟩,
    creator_id := 42, prev_hash := WGenesis.hash_block,
    timestamp := "12:00:01".data, nonce := 0 }

/-! The claim theorems. -/

/-- C1: for every candidate block and difficulty at least 0, `proof_of_work`
terminates only with a block whose digest starts with `difficulty` zero
characters; when the initial digest already meets the target — in particular
always when the difficulty is 0 — it returns immediately with the candidate
(hence the nonce) unchanged. -/
theorem pow_partial_correct_and_immediate (pc : PyChain) (fuel : Nat)
    (b b' : Block) (hd : 0 ≤ pc.difficulty) :
    (pc.proof_of_work fuel b = some b' →
      pyStartswith b'.hash_block (List.replicate pc.difficulty.toNat '0') = true) ∧
    (pyStartswith b.hash_block (List.replicate pc.difficulty.toNat '0') = true →
      pc.proof_of_work fuel b = some b) ∧
    (pc.difficulty = 0 → pc.proof_of_work fuel b = some b) := by
  refine ⟨?_, ?_, ?_⟩
  · intro h
    exact (powAux_spec pc.difficulty fuel b b' h).2.2.2.2.2.1
  · intro h
    exact powAux_immediate pc.difficulty fuel b h
  · intro h
    apply powAux_immediate
    rw [h]
    rfl

/-- Witness for C1 at difficulty 0 on the genesis block: the returned digest
meets the (empty) target and the call returns the candidate unchanged. -/
theorem pow_partial_correct_and_immediate_witness :
    pyStartswith WGenesis.hash_block (List.replicate WPc.difficulty.toNat '0') = true ∧
    WPc.proof_of_work 0 WGenesis = some WGenesis :=
  ⟨(pow_partial_correct_and_immediate WPc 0 WGenesis WGenesis (by decide)).1 rfl,
   (pow_partial_correct_and_immediate WPc 0 WGenesis WGenesis (by decide)).2.2 rfl⟩

/-- C2: on a nonempty chain, `is_valid` returns true exactly when every
adjacent pair is correctly linked; a ledger holding only the genesis block
is valid whatever its `prev_hash` sentinel; and overwriting the stored
`prev_hash` of the second block with any string other than the digest of the
first makes `is_valid` return false, whatever follows (no further
scanning). -/
theorem is_valid_characterization (d : Int) (b0 : Block) (rest : List Block) :
    ((PyChain.mk (b0 :: rest) d).is_valid = some true ↔ LinksOk (b0 :: rest)) ∧
    (PyChain.mk [b0] d).is_valid = some true ∧
    (∀ (b1 : Block) (s : List Char) (rest2 : List Block), s ≠ b0.hash_block →
      (PyChain.mk (b0 :: { b1 with prev_hash := s } :: rest2) d).is_valid =
        some false) := by
  refine ⟨?_, rfl, ?_⟩
  · unfold PyChain.is_valid
    dsimp only
    rw [Option.some_inj]
    exact isValidAux_iff b0 rest
  · intro b1 s rest2 hs
    unfold PyChain.is_valid
    dsimp only [isValidAux]
    have hbeq : (b0.hash_block == s) = false :=
      beq_eq_false_iff_ne.mpr (fun h => hs h.symm)
    rw [hbeq]

/-- Witness for C2: the genesis-only ledger is valid and matches the
linkage predicate, and planting an empty-string `prev_hash` into a second
block makes validation fail. -/
theorem is_valid_characterization_witness :
    (PyChain.mk [WGenesis] 0).is_valid = some true ∧
    LinksOk [WGenesis] ∧
    (PyChain.mk (WGenesis :: { WGenesis with prev_hash := ([] : List Char) } :: []) 0).is_valid =
      some false :=
  ⟨(is_valid_characterization 0 WGenesis []).2.1,
   trivial,
   (is_valid_characterization 0 WGenesis []).2.2 WGenesis [] []
     (by
       intro h
       have h2 := congrArg List.length h
       rw [hash_block_length] at h2
       exact absurd h2 (by decide))⟩

/-- C3: appending via `add_block` a candidate wired to the digest of the
current last block preserves validity; hence every chain built purely by
correctly wired appends from a genesis singleton is valid. -/
theorem append_preserves_validity :
    (∀ (pc : PyChain) (fuel : Nat) (cand last : Block) (pc' : PyChain),
      pc.is_valid = some true → pc.chain.getLast? = some last →
      cand.prev_hash = last.hash_block → pc.add_block fuel cand = some pc' →
      pc'.is_valid = some true) ∧
    (∀ (fuel : Nat) (g : Block) (d : Int)
      (specs : List (RecordData × Int × List Char)) (pc' : PyChain),
      buildChain fuel (PyChain.mk [g] d) specs = some pc' →
      pc'.is_valid = some true) := by
  constructor
  · exact fun pc fuel cand last pc' hv hl hw ha =>
      add_block_valid pc fuel cand last pc' hv hl hw ha
  · intro fuel g d specs pc' h
    exact buildChain_valid fuel specs (PyChain.mk [g] d) pc' rfl h

/-- Witness for C3: appending the wired candidate to the genesis ledger at
difficulty 0 yields a valid two-block ledger, and the empty build is
valid. -/
theorem append_preserves_validity_witness :
    (PyChain.mk [WGenesis, WCand] 0).is_valid = some true ∧
    (PyChain.mk [WGenesis] 0).is_valid = some true :=
  ⟨append_preserves_validity.1 WPc 0 WCand WGenesis
      (PyChain.mk [WGenesis, WCand] 0) rfl rfl rfl rfl,
   append_preserves_validity.2 0 WGenesis 0 [] (PyChain.mk [WGenesis] 0) rfl⟩

/-- C4: a successful `add_block` runs proof-of-work with the current
difficulty of the ledger and appends the mined block as the new last
element: the chain grows by exactly one, the previously present prefix is
unchanged, and the difficulty field is unchanged. -/
theorem add_block_frame (pc : PyChain) (fuel : Nat) (cand : Block)
    (pc' : PyChain) (h : pc.add_block fuel cand = some pc') :
    (∃ b', pc.proof_of_work fuel cand = some b' ∧
      pc'.chain = pc.chain ++ [b']) ∧
    pc'.chain.length = pc.chain.length + 1 ∧
    pc'.chain.take pc.chain.length = pc.chain ∧
    pc'.difficulty = pc.difficulty := by
  obtain ⟨b', hpow, rfl⟩ := add_block_inv pc fuel cand pc' h
  refine ⟨⟨b', hpow, rfl⟩, by simp, ?_, rfl⟩
  exact List.take_left pc.chain [b']

/-- Witness for C4 at difficulty 0: appending to the genesis singleton. -/
theorem add_block_frame_witness :
    (∃ b', WPc.proof_of_work 0 WCand = some b' ∧
      (PyChain.mk [WGenesis, WCand] 0).chain = WPc.chain ++ [b']) ∧
    (PyChain.mk [WGenesis, WCand] 0).chain.length = WPc.chain.length + 1 ∧
    (PyChain.mk [WGenesis, WCand] 0).chain.take WPc.chain.length = WPc.chain ∧
    (PyChain.mk [WGenesis, WCand] 0).difficulty = WPc.difficulty :=
  add_block_frame WPc 0 WCand (PyChain.mk [WGenesis, WCand] 0) rfl

/-- C5: the digest is a pure function of exactly the five block fields — two
blocks agreeing on all five fields have equal digests — and the digest is
always a 64-character string of hexadecimal digit characters. (Determinism
across calls is inherent to the functional embedding: `hash_block` is a
function of the block alone.) -/
theorem hash_block_pure_fixed_length (b1 b2 : Block)
    (h1 : b1.record = b2.record) (h2 : b1.creator_id = b2.creator_id)
    (h3 : b1.timestamp = b2.timestamp) (h4 : b1.prev_hash = b2.prev_hash)
    (h5 : b1.nonce = b2.nonce) :
    b1.hash_block = b2.hash_block ∧ b1.hash_block.length = 64 ∧
    ∀ c ∈ b1.hash_block, c ∈ hexDigits := by
  have hb : b1 = b2 := by
    cases b1
    cases b2
    dsimp only at h1 h2 h3 h4 h5
    subst h1
    subst h2
    subst h3
    subst h4
    subst h5
    rfl
  subst hb
  exact ⟨rfl, hash_block_length b1, fun c hc => sha256_mem_hex _ c hc⟩

/-- Witness for C5 on the genesis block. -/
theorem hash_block_pure_fixed_length_witness :
    WGenesis.hash_block = WGenesis.hash_block ∧
    WGenesis.hash_block.length = 64 ∧
    ∀ c ∈ WGenesis.hash_block, c ∈ hexDigits :=
  hash_block_pure_fixed_length WGenesis WGenesis rfl rfl rfl rfl rfl

/-- C6: when the amount text is not numeric, `float(amount)` raises and the
exception propagates out of the handler before admission is attempted: the
result is the ParseError with the ledger state returned exactly as it was,
so no block is added and no existing block is modified. -/
theorem parse_error_leaves_chain_unchanged (classTs : List Char)
    (pc : PyChain) (fuel : Nat) (sender receiver amount : List Char)
    (prev : Block) (hne : pc.chain.getLast? = some prev)
    (hbad : pyFloatAccepts amount = false) :
    addBlockClick classTs pc fuel sender receiver amount =
      some (pc, some UiError.parseError) := by
  unfold addBlockClick
  rw [hne]
  dsimp only
  rw [hbad]

/-- Witness for C6: the amount text "abc" is rejected and the genesis ledger
comes back unchanged. -/
theorem parse_error_leaves_chain_unchanged_witness :
    addBlockClick "12:00:00".data WPc 0 "Alice".data "Bob".data "abc".data =
      some (WPc, some UiError.parseError) :=
  parse_error_leaves_chain_unchanged "12:00:00".data WPc 0 "Alice".data
    "Bob".data "abc".data WGenesis rfl (by decide)

/-- C7 (code bug): the dataclass default expression for `timestamp` is
evaluated once, when the class statement executes, so a block constructed
without an explicit timestamp carries the class-creation clock reading, not
its own construction time: with class creation at second 0, a block
constructed at second 1 still reads 00:00:00, equal to a block constructed
at second 0 and different from its own construction time 00:00:01. -/
theorem timestamp_default_evaluated_once :
    (mkBlockDefaultTs 0 1 (RecordData.text "Genesis".data) 0).timestamp = fmtHMS 0 ∧
    (mkBlockDefaultTs 0 1 (RecordData.text "Genesis".data) 0).timestamp =
      (mkBlockDefaultTs 0 0 (RecordData.text "Genesis".data) 0).timestamp ∧
    (mkBlockDefaultTs 0 1 (RecordData.text "Genesis".data) 0).timestamp ≠ fmtHMS 1 := by
  exact ⟨rfl, rfl, by decide⟩

/-- C8 counterexample: at difficulty 65 there is no winning nonce at all —
the digest has exactly 64 characters, so it cannot start with 65 zero
characters — hence the unconditional termination claim is false (the loop
would run forever). -/
theorem pow_difficulty_65_no_winning_nonce :
    ¬ ∃ n : Int, WGenesis.nonce ≤ n ∧
      pyStartswith (Block.hash_block { WGenesis with nonce := n })
        (List.replicate ((65 : Int)).toNat '0') = true := by
  rintro ⟨n, -, h⟩
  have hle := pyStartswith_length_le _ _ h
  rw [hash_block_length] at hle
  simp at hle

/-- C8 amended: the proof-of-work search reaches a result exactly when some
nonce at or above the initial nonce of the candidate has a digest meeting
the target (which in particular requires the difficulty to be at most the
64-character digest length). -/
theorem pow_terminates_iff_winning_nonce (pc : PyChain) (b : Block) :
    (∃ (fuel : Nat) (b' : Block), pc.proof_of_work fuel b = some b') ↔
    (∃ n : Int, b.nonce ≤ n ∧
      pyStartswith (Block.hash_block { b with nonce := n })
        (List.replicate pc.difficulty.toNat '0') = true) := by
  constructor
  · rintro ⟨fuel, b', h⟩
    obtain ⟨e1, e2, e3, e4, e5, e6, -⟩ := powAux_spec pc.difficulty fuel b b' h
    refine ⟨b'.nonce, e5, ?_⟩
    have hb : ({ b with nonce := b'.nonce } : Block) = b' := by
      cases b
      cases b'
      dsimp only at e1 e2 e3 e4 ⊢
      rw [e1, e2, e3, e4]
    rw [hb]
    exact e6
  · rintro ⟨n, h1, h2⟩
    obtain ⟨b', hb'⟩ :=
      powAux_terminates pc.difficulty n ((n - b.nonce).toNat) b h1 rfl h2
    exact ⟨(n - b.nonce).toNat, b', hb'⟩

/-- Witness for the amended C8 at difficulty 0: the initial nonce already
wins, so the search terminates. -/
theorem pow_terminates_iff_winning_nonce_witness :
    ∃ (fuel : Nat) (b' : Block), WPc.proof_of_work fuel WGenesis = some b' :=
  (pow_terminates_iff_winning_nonce WPc WGenesis).mpr
    ⟨WGenesis.nonce, le_refl _, rfl⟩

/-- C9: a successful `proof_of_work` run returns the candidate it was given
with `record`, `creator_id`, `timestamp` and `prev_hash` unchanged, and the
nonce is the least value at or above the initial nonce whose digest meets
the difficulty target. -/
theorem pow_returns_least_winning_nonce (pc : PyChain) (fuel : Nat)
    (b b' : Block) (h : pc.proof_of_work fuel b = some b') :
    b'.record = b.record ∧ b'.creator_id = b.creator_id ∧
    b'.timestamp = b.timestamp ∧ b'.prev_hash = b.prev_hash ∧
    b.nonce ≤ b'.nonce ∧
    pyStartswith b'.hash_block (List.replicate pc.difficulty.toNat '0') = true ∧
    ∀ m : Int, b.nonce ≤ m → m < b'.nonce →
      pyStartswith (Block.hash_block { b with nonce := m })
        (List.replicate pc.difficulty.toNat '0') = false :=
  powAux_spec pc.difficulty fuel b b' h

/-- Witness for C9 at difficulty 0: the run returns the candidate itself. -/
theorem pow_returns_least_winning_nonce_witness :
    WGenesis.record = WGenesis.record ∧
    WGenesis.creator_id = WGenesis.creator_id ∧
    WGenesis.timestamp = WGenesis.timestamp ∧
    WGenesis.prev_hash = WGenesis.prev_hash ∧
    WGenesis.nonce ≤ WGenesis.nonce ∧
    pyStartswith WGenesis.hash_block (List.replicate WPc.difficulty.toNat '0') = true ∧
    ∀ m : Int, WGenesis.nonce ≤ m → m < WGenesis.nonce →
      pyStartswith (Block.hash_block { WGenesis with nonce := m })
        (List.replicate WPc.difficulty.toNat '0') = false :=
  pow_returns_least_winning_nonce WPc 0 WGenesis WGenesis rfl

/-! C10 fixtures: two blocks that differ in `prev_hash` and `nonce` but whose
concatenated field encodings are the same byte stream — the trailing digit 1
of the first `prev_hash` moves onto the front of the second nonce. -/

def XRec : RecordData :=
  RecordData.dat ⟨"Alice".data, "Bob".data, "10.0".data⟩

def XB1 : Block :=
  { record := XRec, creator_id := 42, prev_hash := "01".data,
    timestamp := "12:00:00".data, nonce := 23 }

def XB2 : Block :=
  { record := XRec, creator_id := 42, prev_hash := "0".data,
    timestamp := "12:00:00".data, nonce := 123 }

/-- C10: the field encoding of `hash_block` is not injective: `XB1` and
`XB2` differ in their `prev_hash` and `nonce` fields, yet their concatenated
byte streams — hence their digests — are identical. -/
theorem hash_block_field_encoding_collision :
    XB1 ≠ XB2 ∧ XB1.prev_hash ≠ XB2.prev_hash ∧ XB1.nonce ≠ XB2.nonce ∧
    XB1.hashInput = XB2.hashInput ∧ XB1.hash_block = XB2.hash_block :=
  ⟨by decide, by decide, by decide, by decide,
   congrArg sha256 (by decide)⟩

